import Mathlib

/-!
Shallow embedding of the `alg_ev` evolutionary-computation toolkit:
the DIMACS CNF formula parser and evaluator (`src/alg/objectives.rs`),
the SAT objective, and the population generators (`src/population.rs`).

Strings are modelled as `List Char` (a Rust `&str` restricted to the
line-oriented operations the source uses); the input stream is the list
of its lines, as produced by `BufRead::lines`.
-/

namespace AlgEv

/-! ## Tokenization helpers (Rust `str::trim`, `str::split_whitespace`,
`str::starts_with`, `str::is_empty`) -/

/-- Rust `char::is_whitespace` restricted to the ASCII whitespace the
format uses. -/
def isWs (c : Char) : Bool := c.isWhitespace

/-- Rust `str::trim`: drop whitespace from both ends. -/
def trimChars (l : List Char) : List Char :=
  ((l.dropWhile isWs).reverse.dropWhile isWs).reverse

/-- Worker for `splitWs`: `acc` is the current token, reversed. -/
def splitWsGo : List Char → List Char → List (List Char)
  | [], acc => if acc.isEmpty then [] else [acc.reverse]
  | c :: rest, acc =>
    if isWs c then
      if acc.isEmpty then splitWsGo rest []
      else acc.reverse :: splitWsGo rest []
    else splitWsGo rest (c :: acc)

/-- Rust `str::split_whitespace`: whitespace-separated tokens, no empties. -/
def splitWs (l : List Char) : List (List Char) := splitWsGo l []

/-- Rust `str::starts_with(c)` for a single character. -/
def startsWithChar (l : List Char) (c : Char) : Bool :=
  match l with
  | [] => false
  | d :: _ => d = c

/-! ## Integer parsing (Rust `u64::from_str`, `i64::from_str`) -/

/-- Accumulate decimal digits; fails on any non-digit. -/
def parseDigitsGo : List Char → Nat → Option Nat
  | [], acc => some acc
  | c :: rest, acc =>
    if c.isDigit then parseDigitsGo rest (acc * 10 + (c.toNat - 48)) else none

/-- A nonempty all-digit run, as a number. -/
def parseDigits (l : List Char) : Option Nat :=
  if l.isEmpty then none else parseDigitsGo l 0

/-- Rust `str::parse::<u64>()`: optional leading `+`, then digits, with
the `u64` range bound. -/
def parseU64 (l : List Char) : Option Nat :=
  let body := match l with
    | '+' :: rest => rest
    | _ => l
  match parseDigits body with
  | some n => if n < 2 ^ 64 then some n else none
  | none => none

/-- Rust `str::parse::<i64>()`: optional sign, then digits, with the
`i64` range bounds. -/
def parseI64 (l : List Char) : Option Int :=
  match l with
  | '-' :: rest =>
    match parseDigits rest with
    | some n => if n ≤ 2 ^ 63 then some (-(n : Int)) else none
    | none => none
  | '+' :: rest =>
    match parseDigits rest with
    | some n => if n < 2 ^ 63 then some n else none
    | none => none
  | _ =>
    match parseDigits l with
    | some n => if n < 2 ^ 63 then some n else none
    | none => none

/-! ## Data model (`src/alg/objectives.rs`) -/

/-- `enum Literal { Var(u64), NegatedVar(u64) }`. -/
inductive Literal where
  | Var (id : Nat)
  | NegatedVar (id : Nat)
deriving DecidableEq

/-- The variable id referenced by a literal. -/
def Literal.varId : Literal → Nat
  | .Var id => id
  | .NegatedVar id => id

/-- `struct Clause(Vec<Literal>)`. -/
structure Clause where
  lits : List Literal
deriving DecidableEq

/-- `struct Formula { num_vars, num_clauses, clauses }`. -/
structure Formula where
  num_vars : Nat
  num_clauses : Nat
  clauses : List Clause
deriving DecidableEq

/-- `struct FormulaEvaluation { solved, num_true, num_false }`. -/
structure FormulaEvaluation where
  solved : Bool
  num_true : Nat
  num_false : Nat
deriving DecidableEq

/-- The parse-error enum `FormulaParsingError`. The `IO` variant carries a
stream read failure; with the stream modelled as pure text it cannot
arise, and the payloads of `IO`/`Parsing` are dropped. -/
inductive FormulaParsingError where
  | Parsing
  | NoHeader
  | InvalidHeader
  | EmptyClause
  | InconsistentNumOfVars
  | InconsistentNumOfClauses
  | VarOutOfBounds
deriving DecidableEq

/-- Outcome of `parse_from_dimacs_cnf`: `Ok`, `Err`, or the Rust panic
raised by `var_set.iter().max().unwrap()` when the variable set is empty. -/
inductive ParseResult where
  | ok (f : Formula)
  | err (e : FormulaParsingError)
  | panicked
deriving DecidableEq

/-! ## Evaluation (`Clause::evaluate`, `Formula::evaluate`) -/

/-- Rust `collect::<Option<Vec<_>>>()`: all-or-nothing collection. -/
def optionCollect {α : Type} : List (Option α) → Option (List α)
  | [] => some []
  | none :: _ => none
  | some a :: rest => (optionCollect rest).map (fun t => a :: t)

/-- One literal against a valuation: `valoration.get((index - 1) as usize)`,
negated for `NegatedVar`. Parsed formulas only contain ids `≥ 1`, so the
`index - 1` of the source never underflows there; `Nat` subtraction
truncates at `0` for the (unreachable) id `0`. -/
def Literal.evalLit (valoration : List Bool) : Literal → Option Bool
  | .Var id => valoration.get? (id - 1)
  | .NegatedVar id => (valoration.get? (id - 1)).map (fun v => !v)

/-- `Clause::evaluate`: map literals, collect, disjunction. -/
def Clause.evaluate (c : Clause) (valoration : List Bool) : Option Bool :=
  match optionCollect (c.lits.map (Literal.evalLit valoration)) with
  | some evaluation => some (evaluation.any (fun v => v))
  | none => none

/-- `Formula::evaluate`: length guard, per-clause evaluation, then the
counts. `num_false` is the source's `num_clauses - num_true` (exact for
parsed formulas, where `num_true ≤ num_clauses`). -/
def Formula.evaluate (f : Formula) (valoration : List Bool) : Option FormulaEvaluation :=
  if f.num_vars ≠ valoration.length then none
  else
    match optionCollect (f.clauses.map (fun c => c.evaluate valoration)) with
    | some evaluation =>
      let num_true := evaluation.foldl (fun n v => if v then n + 1 else n) 0
      some ⟨decide (num_true = f.num_clauses), num_true, f.num_clauses - num_true⟩
    | none => none

/-! ## The DIMACS CNF parser (`Formula::parse_from_dimacs_cnf`) -/

/-- The token loop of a clause line: parse each token as `i64`; `0`
terminates the clause; a positive `v` adds `Var(v)` and a negative one
`NegatedVar(-v)`, registering the id in the variable set. Rust's
`val as u64` / `(-val) as u64` is `Int.natAbs`. `none` is a
`ParseIntError` propagated as `FormulaParsingError::Parsing`. -/
def parseLits : List (List Char) → Finset Nat → List Literal →
    Option (Finset Nat × List Literal)
  | [], var_set, lits => some (var_set, lits)
  | tok :: rest, var_set, lits =>
    match parseI64 tok with
    | none => none
    | some val =>
      if val = 0 then some (var_set, lits)
      else if val > 0 then
        parseLits rest (insert val.natAbs var_set) (lits ++ [Literal.Var val.natAbs])
      else
        parseLits rest (insert val.natAbs var_set) (lits ++ [Literal.NegatedVar val.natAbs])

/-- The checks after the line loop, in source order; the third step is
`var_set.iter().max().unwrap()`, which panics when the set is empty. -/
def finalChecks (num_vars num_clauses : Nat) (var_set : Finset Nat)
    (clauses : List Clause) : ParseResult :=
  if clauses.length ≠ num_clauses then .err .InconsistentNumOfClauses
  else if var_set.card ≠ num_vars then .err .InconsistentNumOfVars
  else if h : var_set = ∅ then .panicked
  else if var_set.max' (Finset.nonempty_iff_ne_empty.mpr h) ≠ num_vars then
    .err .VarOutOfBounds
  else .ok ⟨num_vars, num_clauses, clauses⟩

/-- The body loop: `%` terminates, blank/`c` lines are skipped, anything
else is a clause line. -/
def parseBody (num_vars num_clauses : Nat) (var_set : Finset Nat)
    (clauses : List Clause) : List (List Char) → ParseResult
  | [] => finalChecks num_vars num_clauses var_set clauses
  | line :: rest =>
    if startsWithChar (trimChars line) '%' then
      finalChecks num_vars num_clauses var_set clauses
    else if (trimChars line).isEmpty || startsWithChar (trimChars line) 'c' then
      parseBody num_vars num_clauses var_set clauses rest
    else
      match parseLits (splitWs (trimChars line)) var_set [] with
      | none => .err .Parsing
      | some (var_set2, lits) =>
        if lits.isEmpty then .err .EmptyClause
        else parseBody num_vars num_clauses var_set2 (clauses ++ [⟨lits⟩]) rest

/-- Header handling: tokens must start `p cnf` followed by two `u64`
tokens (extra trailing tokens match the `..` of the source's slice
pattern); the two numbers go through `str::parse::<u64>()?`. -/
def headerParse (header : List Char) : Except FormulaParsingError (Nat × Nat) :=
  match splitWs (trimChars header) with
  | p :: cnf :: nv :: nc :: _ =>
    if p = ['p'] ∧ cnf = ['c', 'n', 'f'] then
      match parseU64 nv with
      | none => .error .Parsing
      | some num_vars =>
        match parseU64 nc with
        | none => .error .Parsing
        | some num_clauses => .ok (num_vars, num_clauses)
    else .error .InvalidHeader
  | _ => .error .InvalidHeader

/-- `Formula::parse_from_dimacs_cnf`, over the list of lines of the
stream. -/
def parse_from_dimacs_cnf (input : List (List Char)) : ParseResult :=
  match input with
  | [] => .err .NoHeader
  | header :: rest =>
    match headerParse header with
    | .error e => .err e
    | .ok (num_vars, num_clauses) => parseBody num_vars num_clauses ∅ [] rest

/-! ## SAT objective (`SATObjective::eval`) -/

/-- `SATObjective::eval`: each binary individual's gene sequence is a
valuation (`to_bool_slice` is the identity on the gene list); the score
is `num_false`; collection is all-or-nothing. -/
def SATObjective.eval (formula : Formula) (pop : List (List Bool)) : Option (List Nat) :=
  optionCollect (pop.map (fun ind =>
    (formula.evaluate ind).map (fun evaluation => evaluation.num_false)))

/-! ## Population generators (`src/population.rs`)

The random source `rand::thread_rng()` is abstracted as a stream of raw
draws indexed by (individual, gene) position; quantifying over the
stream covers every outcome of the source. `rng.gen_bool(0.5)` consumes
a boolean draw; `Uniform::from(lower..=upper).sample` maps a raw draw
into the inclusive range, per the `rand` crate's contract for `Uniform`;
`slice::shuffle` is the Fisher-Yates loop of the crate, one
`gen_range(0..=i)` draw per step. -/

/-- A `Uniform::from(lower..=upper)` integer sample: always inside the
inclusive bounds. -/
def uniformSample (lower upper raw : Nat) : Nat :=
  lower + raw % (upper - lower + 1)

/-- A `Uniform::from(lower..=upper)` floating-point sample, with `f64`
modelled as `ℚ`: a unit-interval draw scaled into the inclusive range. -/
def uniformSampleReal (lower upper raw : ℚ) : ℚ :=
  lower + (upper - lower) * (max 0 (min 1 raw))

/-- `BinaryPopGenerator::gen_pop`: `pop_size` individuals of `dim` fair
coin flips each. -/
def BinaryPopGenerator.gen_pop (dim pop_size : Nat) (rng : Nat → Nat → Bool) :
    List (List Bool) :=
  (List.range pop_size).map (fun i => (List.range dim).map (fun j => rng i j))

/-- `IntegerPopGenerator::gen_pop`: `pop_size` individuals of `dim`
uniform draws from `[lower, upper]` each. -/
def IntegerPopGenerator.gen_pop (dim lower upper pop_size : Nat)
    (rng : Nat → Nat → Nat) : List (List Nat) :=
  (List.range pop_size).map (fun i =>
    (List.range dim).map (fun j => uniformSample lower upper (rng i j)))

/-- `RealPopGenerator::gen_pop`: `pop_size` individuals of `dim` uniform
real draws from `[lower, upper]` each. -/
def RealPopGenerator.gen_pop (dim : Nat) (lower upper : ℚ) (pop_size : Nat)
    (rng : Nat → Nat → ℚ) : List (List ℚ) :=
  (List.range pop_size).map (fun i =>
    (List.range dim).map (fun j => uniformSampleReal lower upper (rng i j)))

/-- `Vec::swap(i, j)`: exchange positions `i` and `j` (identity when a
position is out of bounds, which Fisher-Yates never produces). -/
def listSwap {α : Type} (l : List α) (i j : Nat) : List α :=
  match l.get? i, l.get? j with
  | some a, some b => (l.set i b).set j a
  | _, _ => l

/-- The Fisher-Yates loop of `slice::shuffle`: for `i` from `len - 1`
down to `1`, swap position `i` with `gen_range(0..=i)`. -/
def shuffleFrom {α : Type} (rng : Nat → Nat) : Nat → List α → List α
  | 0, l => l
  | i + 1, l => shuffleFrom rng i (listSwap l (i + 1) (rng (i + 1) % (i + 2)))

/-- `slice::shuffle` over the abstract draw stream. -/
def shuffle {α : Type} (rng : Nat → Nat) (l : List α) : List α :=
  shuffleFrom rng (l.length - 1) l

/-- `IntPermPopGenerator::gen_pop`: `pop_size` individuals, each a
shuffle of `(0..dim).collect()`. -/
def IntPermPopGenerator.gen_pop (dim pop_size : Nat) (rng : Nat → Nat → Nat) :
    List (List Nat) :=
  (List.range pop_size).map (fun i => shuffle (rng i) (List.range dim))

/-! ## Derived notions used by the statements -/

/-- The variable ids referenced by a list of literals. -/
def litsVars (ls : List Literal) : Finset Nat :=
  (ls.map Literal.varId).toFinset

/-- The set of distinct variable ids referenced across the clauses. -/
def clausesVars (cs : List Clause) : Finset Nat :=
  ((cs.map fun c => c.lits.map Literal.varId).flatten).toFinset

/-- The number of clauses of `f` that evaluate to `true` under `val`. -/
def trueCount (f : Formula) (val : List Bool) : Nat :=
  (f.clauses.filter (fun c => decide (c.evaluate val = some true))).length

/-! ## Lemmas about `optionCollect` -/

theorem optionCollect_eq_some_iff {α : Type} :
    ∀ (xs : List (Option α)) (ys : List α),
      optionCollect xs = some ys ↔ xs = ys.map some := by
  intro xs
  induction xs with
  | nil =>
    intro ys
    cases ys <;> simp [optionCollect]
  | cons x rest ih =>
    intro ys
    cases x with
    | none =>
      cases ys <;> simp [optionCollect]
    | some a =>
      cases ys with
      | nil => simp [optionCollect]
      | cons b t =>
        simp only [optionCollect, Option.map_eq_some', List.map_cons, List.cons.injEq,
          Option.some.injEq]
        constructor
        · rintro ⟨t', hrest, rfl, rfl⟩
          exact ⟨rfl, (ih t').mp hrest⟩
        · rintro ⟨rfl, hrest⟩
          exact ⟨t, (ih t).mpr hrest, rfl, rfl⟩

theorem optionCollect_map_some {α : Type} (l : List α) :
    optionCollect (l.map some) = some l :=
  (optionCollect_eq_some_iff _ _).mpr rfl

theorem optionCollect_eq_none_of_mem {α : Type} :
    ∀ (xs : List (Option α)), none ∈ xs → optionCollect xs = none := by
  intro xs
  induction xs with
  | nil => intro h; cases h
  | cons x rest ih =>
    intro h
    cases x with
    | none => rfl
    | some a =>
      have : none ∈ rest := by
        rcases List.mem_cons.mp h with h' | h'
        · cases h'
        · exact h'
      simp [optionCollect, ih this]

theorem optionCollect_exists_of_forall_isSome {α : Type} :
    ∀ (xs : List (Option α)), (∀ x ∈ xs, x.isSome) →
      ∃ ys, optionCollect xs = some ys := by
  intro xs
  induction xs with
  | nil => intro _; exact ⟨[], rfl⟩
  | cons x rest ih =>
    intro h
    rcases Option.isSome_iff_exists.mp (h x (List.mem_cons_self _ _)) with ⟨a, rfl⟩
    rcases ih (fun y hy => h y (List.mem_cons_of_mem _ hy)) with ⟨ys, hys⟩
    exact ⟨a :: ys, by simp [optionCollect, hys]⟩

/-! ## Lemmas about `Formula.evaluate` -/

theorem foldl_count_true :
    ∀ (l : List Bool) (n : Nat),
      l.foldl (fun n v => if v then n + 1 else n) n = n + l.count true := by
  intro l
  induction l with
  | nil => intro n; simp
  | cons b t ih =>
    intro n
    cases b
    · simp [List.count_cons, ih]
    · simp [List.count_cons, ih]
      omega

theorem filter_length_of_map_eq_map_some {α : Type} (g : α → Option Bool) :
    ∀ (cs : List α) (ys : List Bool), cs.map g = ys.map some →
      (cs.filter (fun c => decide (g c = some true))).length = ys.count true := by
  intro cs
  induction cs with
  | nil =>
    intro ys h
    cases ys with
    | nil => simp
    | cons b t => simp at h
  | cons c t ih =>
    intro ys h
    cases ys with
    | nil => simp at h
    | cons b u =>
      simp only [List.map_cons, List.cons.injEq] at h
      rcases h with ⟨hc, ht⟩
      cases b with
      | true => simp [List.filter_cons, List.count_cons, hc, ih u ht]
      | false => simp [List.filter_cons, List.count_cons, hc, ih u ht]

/-- What a successful `Formula::evaluate` returns, in terms of the
per-clause results. -/
theorem evaluate_eq_some_char (f : Formula) (val : List Bool)
    (ev : FormulaEvaluation) (h : f.evaluate val = some ev) :
    f.num_vars = val.length ∧
    ∃ ys : List Bool, f.clauses.map (fun c => c.evaluate val) = ys.map some ∧
      ev.num_true = ys.count true ∧
      ev.num_false = f.num_clauses - ev.num_true ∧
      ev.solved = decide (ev.num_true = f.num_clauses) := by
  unfold Formula.evaluate at h
  split at h
  · exact absurd h (by simp)
  · rename_i hlen
    split at h
    · rename_i ys hys
      simp only [Option.some.injEq] at h
      subst h
      refine ⟨by omega, ys, (optionCollect_eq_some_iff _ _).mp hys, ?_⟩
      simp [foldl_count_true]
    · exact absurd h (by simp)

/-! ## Parser invariants -/

theorem clausesVars_nil : clausesVars [] = ∅ := rfl

theorem clausesVars_append_singleton (cls : List Clause) (ls : List Literal) :
    clausesVars (cls ++ [⟨ls⟩]) = clausesVars cls ∪ litsVars ls := by
  simp [clausesVars, litsVars]

theorem mem_clausesVars {a : Nat} {cs : List Clause} :
    a ∈ clausesVars cs ↔ ∃ c ∈ cs, ∃ l ∈ c.lits, l.varId = a := by
  simp only [clausesVars, List.mem_toFinset, List.mem_flatten, List.mem_map]
  constructor
  · rintro ⟨-, ⟨c, hc, rfl⟩, hl⟩
    rcases List.mem_map.mp hl with ⟨l, hl', rfl⟩
    exact ⟨c, hc, l, hl', rfl⟩
  · rintro ⟨c, hc, l, hl, rfl⟩
    exact ⟨c.lits.map Literal.varId, ⟨c, hc, rfl⟩, List.mem_map_of_mem _ hl⟩

theorem parseLits_some :
    ∀ (toks : List (List Char)) (vs : Finset Nat) (lits : List Literal)
      (vs' : Finset Nat) (lits' : List Literal),
      parseLits toks vs lits = some (vs', lits') →
      ∃ nl, lits' = lits ++ nl ∧ vs' = vs ∪ litsVars nl ∧
        ∀ l ∈ nl, 1 ≤ l.varId := by
  intro toks
  induction toks with
  | nil =>
    intro vs lits vs' lits' h
    simp only [parseLits, Option.some.injEq, Prod.mk.injEq] at h
    exact ⟨[], by simp [← h.1, ← h.2, litsVars]⟩
  | cons tok rest ih =>
    intro vs lits vs' lits' h
    simp only [parseLits] at h
    split at h
    · cases h
    · rename_i val hI
      by_cases h0 : val = 0
      · rw [if_pos h0] at h
        simp only [Option.some.injEq, Prod.mk.injEq] at h
        exact ⟨[], by simp [← h.1, ← h.2, litsVars]⟩
      · rw [if_neg h0] at h
        have hpos : 0 < val.natAbs := Int.natAbs_pos.mpr h0
        by_cases hgt : val > 0
        · rw [if_pos hgt] at h
          rcases ih _ _ _ _ h with ⟨nl', h1, h2, h3⟩
          refine ⟨Literal.Var val.natAbs :: nl', by simpa using h1, ?_, ?_⟩
          · rw [h2]
            simp [litsVars, Literal.varId, Finset.insert_union, Finset.union_insert]
          · intro l hl
            rcases List.mem_cons.mp hl with rfl | hl'
            · exact hpos
            · exact h3 l hl'
        · rw [if_neg hgt] at h
          rcases ih _ _ _ _ h with ⟨nl', h1, h2, h3⟩
          refine ⟨Literal.NegatedVar val.natAbs :: nl', by simpa using h1, ?_, ?_⟩
          · rw [h2]
            simp [litsVars, Literal.varId, Finset.insert_union, Finset.union_insert]
          · intro l hl
            rcases List.mem_cons.mp hl with rfl | hl'
            · exact hpos
            · exact h3 l hl'

theorem finalChecks_ok (nv nc : Nat) (vs : Finset Nat) (cls : List Clause)
    (f : Formula) (h : finalChecks nv nc vs cls = .ok f) :
    f = ⟨nv, nc, cls⟩ ∧ cls.length = nc ∧ vs.card = nv ∧
      vs.max = (nv : WithBot Nat) := by
  unfold finalChecks at h
  split at h
  · cases h
  split at h
  · cases h
  split at h
  · cases h
  split at h
  · cases h
  rename_i hlen hcard hne hmax
  simp only [ParseResult.ok.injEq] at h
  refine ⟨h.symm, by omega, by omega, ?_⟩
  have hmax' : vs.max' (Finset.nonempty_iff_ne_empty.mpr hne) = nv := by omega
  rw [← Finset.coe_max' (Finset.nonempty_iff_ne_empty.mpr hne), hmax']
  rfl

theorem parseBody_ok (nv nc : Nat) :
    ∀ (ls : List (List Char)) (vs : Finset Nat) (cls : List Clause) (f : Formula),
      parseBody nv nc vs cls ls = .ok f →
      vs = clausesVars cls →
      (∀ c ∈ cls, ∀ l ∈ c.lits, 1 ≤ l.varId) →
      f.num_vars = nv ∧ f.num_clauses = nc ∧ f.clauses.length = nc ∧
      (clausesVars f.clauses).card = nv ∧
      (clausesVars f.clauses).max = (nv : WithBot Nat) ∧
      ∀ c ∈ f.clauses, ∀ l ∈ c.lits, 1 ≤ l.varId := by
  have fromFinal : ∀ (vs : Finset Nat) (cls : List Clause) (f : Formula),
      finalChecks nv nc vs cls = .ok f → vs = clausesVars cls →
      (∀ c ∈ cls, ∀ l ∈ c.lits, 1 ≤ l.varId) →
      f.num_vars = nv ∧ f.num_clauses = nc ∧ f.clauses.length = nc ∧
      (clausesVars f.clauses).card = nv ∧
      (clausesVars f.clauses).max = (nv : WithBot Nat) ∧
      ∀ c ∈ f.clauses, ∀ l ∈ c.lits, 1 ≤ l.varId := by
    intro vs cls f h hvs hids
    rcases finalChecks_ok nv nc vs cls f h with ⟨rfl, hlen, hcard, hmax⟩
    exact ⟨rfl, rfl, hlen, by rw [← hvs]; exact hcard, by rw [← hvs]; exact hmax, hids⟩
  intro ls
  induction ls with
  | nil =>
    intro vs cls f h hvs hids
    exact fromFinal vs cls f h hvs hids
  | cons line rest ih =>
    intro vs cls f h hvs hids
    simp only [parseBody] at h
    by_cases hterm : startsWithChar (trimChars line) '%'
    · rw [if_pos hterm] at h
      exact fromFinal vs cls f h hvs hids
    · rw [if_neg hterm] at h
      by_cases hskip : ((trimChars line).isEmpty || startsWithChar (trimChars line) 'c') = true
      · rw [if_pos hskip] at h
        exact ih vs cls f h hvs hids
      · rw [if_neg hskip] at h
        split at h
        · cases h
        · rename_i vs2 lits hP
          split at h
          · cases h
          · rcases parseLits_some _ _ _ _ _ hP with ⟨nl, h1, h2, h3⟩
            rw [List.nil_append] at h1
            refine ih vs2 (cls ++ [⟨lits⟩]) f h ?_ ?_
            · rw [clausesVars_append_singleton, ← hvs, h2, h1]
            · intro c hc l hl
              rcases List.mem_append.mp hc with hc' | hc'
              · exact hids c hc' l hl
              · rcases List.mem_singleton.mp hc' with rfl
                rw [h1] at hl
                exact h3 l hl

/-- Everything a successful parse guarantees about the result: the three
structural invariants of the spec, plus id bounds for every stored
literal. -/
theorem parse_ok_wf (input : List (List Char)) (f : Formula)
    (h : parse_from_dimacs_cnf input = .ok f) :
    f.clauses.length = f.num_clauses ∧
    (clausesVars f.clauses).card = f.num_vars ∧
    (clausesVars f.clauses).max = (f.num_vars : WithBot Nat) ∧
    ∀ c ∈ f.clauses, ∀ l ∈ c.lits, 1 ≤ l.varId ∧ l.varId ≤ f.num_vars := by
  cases input with
  | nil => cases h
  | cons header rest =>
    simp only [parse_from_dimacs_cnf] at h
    cases hH : headerParse header with
    | error e => rw [hH] at h; cases h
    | ok p =>
      obtain ⟨nv, nc⟩ := p
      rw [hH] at h
      rcases parseBody_ok nv nc rest ∅ [] f h clausesVars_nil.symm
        (by intro c hc; cases hc) with ⟨hnv, hnc, hlen, hcard, hmax, hids⟩
      subst hnv
      subst hnc
      refine ⟨hlen, hcard, hmax, ?_⟩
      intro c hc l hl
      refine ⟨(hids c hc l hl), ?_⟩
      have hmem : l.varId ∈ clausesVars f.clauses :=
        mem_clausesVars.mpr ⟨c, hc, l, hl, rfl⟩
      have := Finset.le_max hmem
      rw [hmax] at this
      exact WithBot.coe_le_coe.mp this

/-! ## Evaluation totality for in-bounds formulas -/

theorem clause_evaluate_isSome (c : Clause) (val : List Bool)
    (h : ∀ l ∈ c.lits, 1 ≤ l.varId ∧ l.varId ≤ val.length) :
    ∃ b, c.evaluate val = some b := by
  unfold Clause.evaluate
  have hall : ∀ x ∈ c.lits.map (Literal.evalLit val), x.isSome := by
    intro x hx
    rcases List.mem_map.mp hx with ⟨l, hl, rfl⟩
    rcases h l hl with ⟨h1, h2⟩
    have hlt : l.varId - 1 < val.length := by omega
    cases l with
    | Var id =>
      simp only [Literal.varId] at hlt
      simp [Literal.evalLit, List.get?_eq_getElem?, List.getElem?_eq_getElem hlt]
    | NegatedVar id =>
      simp only [Literal.varId] at hlt
      simp [Literal.evalLit, List.get?_eq_getElem?, List.getElem?_eq_getElem hlt]
  rcases optionCollect_exists_of_forall_isSome _ hall with ⟨ys, hys⟩
  rw [hys]
  exact ⟨_, rfl⟩

theorem evaluate_isSome_of_bounds (f : Formula) (val : List Bool)
    (hids : ∀ c ∈ f.clauses, ∀ l ∈ c.lits, 1 ≤ l.varId ∧ l.varId ≤ f.num_vars)
    (hlen : val.length = f.num_vars) :
    ∃ ev, f.evaluate val = some ev := by
  unfold Formula.evaluate
  rw [if_neg (by omega)]
  have hall : ∀ x ∈ f.clauses.map (fun c => c.evaluate val), x.isSome := by
    intro x hx
    rcases List.mem_map.mp hx with ⟨c, hc, rfl⟩
    rcases clause_evaluate_isSome c val (fun l hl => by
      rcases hids c hc l hl with ⟨h1, h2⟩
      exact ⟨h1, by omega⟩) with ⟨b, hb⟩
    simp [hb]
  rcases optionCollect_exists_of_forall_isSome _ hall with ⟨ys, hys⟩
  rw [hys]
  exact ⟨_, rfl⟩

/-! ## Claim theorems -/

/-- C1: whenever `parse_from_dimacs_cnf` returns `Ok(formula)`, the number
of stored clauses equals the declared `num_clauses`, the set of distinct
referenced variable ids has cardinality `num_vars` and maximum `num_vars`,
and that set is exactly the dense range `{1, …, num_vars}`; hence
re-deriving `num_vars`/`num_clauses` from the parsed structure gives back
the header values. -/
theorem spec_C1_parse_invariants (input : List (List Char)) (f : Formula)
    (h : parse_from_dimacs_cnf input = .ok f) :
    f.clauses.length = f.num_clauses ∧
    (clausesVars f.clauses).card = f.num_vars ∧
    (clausesVars f.clauses).max = (f.num_vars : WithBot Nat) ∧
    clausesVars f.clauses = Finset.Icc 1 f.num_vars := by
  rcases parse_ok_wf input f h with ⟨h1, h2, h3, h4⟩
  refine ⟨h1, h2, h3, ?_⟩
  have hsub : clausesVars f.clauses ⊆ Finset.Icc 1 f.num_vars := by
    intro a ha
    rcases mem_clausesVars.mp ha with ⟨c, hc, l, hl, rfl⟩
    exact Finset.mem_Icc.mpr (h4 c hc l hl)
  exact Finset.eq_of_subset_of_card_le hsub (by rw [Nat.card_Icc]; omega)

theorem spec_C1_witness :
    parse_from_dimacs_cnf
        ["p cnf 3 2".toList, "1 -3 0".toList, "2 3 0".toList, "%".toList] =
      .ok ⟨3, 2, [⟨[.Var 1, .NegatedVar 3]⟩, ⟨[.Var 2, .Var 3]⟩]⟩ ∧
    ((⟨3, 2, [⟨[.Var 1, .NegatedVar 3]⟩, ⟨[.Var 2, .Var 3]⟩]⟩ : Formula).clauses.length =
        (⟨3, 2, [⟨[.Var 1, .NegatedVar 3]⟩, ⟨[.Var 2, .Var 3]⟩]⟩ : Formula).num_clauses ∧
      (clausesVars (⟨3, 2, [⟨[.Var 1, .NegatedVar 3]⟩, ⟨[.Var 2, .Var 3]⟩]⟩ : Formula).clauses).card =
        (⟨3, 2, [⟨[.Var 1, .NegatedVar 3]⟩, ⟨[.Var 2, .Var 3]⟩]⟩ : Formula).num_vars ∧
      (clausesVars (⟨3, 2, [⟨[.Var 1, .NegatedVar 3]⟩, ⟨[.Var 2, .Var 3]⟩]⟩ : Formula).clauses).max =
        ((⟨3, 2, [⟨[.Var 1, .NegatedVar 3]⟩, ⟨[.Var 2, .Var 3]⟩]⟩ : Formula).num_vars : WithBot Nat) ∧
      clausesVars (⟨3, 2, [⟨[.Var 1, .NegatedVar 3]⟩, ⟨[.Var 2, .Var 3]⟩]⟩ : Formula).clauses =
        Finset.Icc 1 (⟨3, 2, [⟨[.Var 1, .NegatedVar 3]⟩, ⟨[.Var 2, .Var 3]⟩]⟩ : Formula).num_vars) :=
  ⟨by decide,
    spec_C1_parse_invariants
      ["p cnf 3 2".toList, "1 -3 0".toList, "2 3 0".toList, "%".toList]
      ⟨3, 2, [⟨[.Var 1, .NegatedVar 3]⟩, ⟨[.Var 2, .Var 3]⟩]⟩ (by decide)⟩

/-- C2: for a parsed formula, a successful evaluation returns `num_true`
equal to the count of clauses evaluating true, `num_false` equal to
`num_clauses - num_true` (so the two sum to `num_clauses`), and `solved`
holds iff `num_true = num_clauses`, equivalently iff `num_false = 0`. -/
theorem spec_C2_evaluation_counts (input : List (List Char)) (f : Formula)
    (val : List Bool) (ev : FormulaEvaluation)
    (hp : parse_from_dimacs_cnf input = .ok f)
    (h : f.evaluate val = some ev) :
    ev.num_true = trueCount f val ∧
    ev.num_false = f.num_clauses - ev.num_true ∧
    ev.num_true + ev.num_false = f.num_clauses ∧
    (ev.solved = true ↔ ev.num_true = f.num_clauses) ∧
    (ev.solved = true ↔ ev.num_false = 0) := by
  rcases evaluate_eq_some_char f val ev h with ⟨hlen, ys, hmap, hnt, hnf, hsolved⟩
  have hys_len : ys.length = f.clauses.length := by
    have := congrArg List.length hmap
    simpa using this.symm
  have hcl : f.clauses.length = f.num_clauses := (parse_ok_wf input f hp).1
  have hle : ev.num_true ≤ f.num_clauses := by
    rw [hnt, ← hcl, ← hys_len]
    exact List.count_le_length _ _
  have htc : ev.num_true = trueCount f val := by
    rw [hnt, trueCount]
    exact (filter_length_of_map_eq_map_some _ _ _ hmap).symm
  refine ⟨htc, hnf, by omega, ?_, ?_⟩
  · rw [hsolved]
    simp
  · rw [hsolved]
    simp only [decide_eq_true_eq]
    omega

theorem spec_C2_witness :
    parse_from_dimacs_cnf
        ["p cnf 3 2".toList, "1 -3 0".toList, "2 3 0".toList, "%".toList] =
      .ok ⟨3, 2, [⟨[.Var 1, .NegatedVar 3]⟩, ⟨[.Var 2, .Var 3]⟩]⟩ ∧
    Formula.evaluate ⟨3, 2, [⟨[.Var 1, .NegatedVar 3]⟩, ⟨[.Var 2, .Var 3]⟩]⟩
        [true, true, false] = some ⟨true, 2, 0⟩ ∧
    ((2 : Nat) = trueCount ⟨3, 2, [⟨[.Var 1, .NegatedVar 3]⟩, ⟨[.Var 2, .Var 3]⟩]⟩ [true, true, false] ∧
      (0 : Nat) = 2 - 2 ∧ (2 : Nat) + 0 = 2 ∧
      (true = true ↔ (2 : Nat) = 2) ∧ (true = true ↔ (0 : Nat) = 0)) :=
  ⟨by decide, by decide,
    spec_C2_evaluation_counts
      ["p cnf 3 2".toList, "1 -3 0".toList, "2 3 0".toList, "%".toList]
      ⟨3, 2, [⟨[.Var 1, .NegatedVar 3]⟩, ⟨[.Var 2, .Var 3]⟩]⟩
      [true, true, false] ⟨true, 2, 0⟩ (by decide) (by decide)⟩

/-- C4: a valuation whose length differs from `num_vars` makes
`Formula::evaluate` return `None` (an absent result, not an error; the
formula is untouched, evaluation being pure), while a parsed formula
evaluated at a valuation of length exactly `num_vars` yields `Some`. -/
theorem spec_C4_length_guard (input : List (List Char)) (f : Formula)
    (val : List Bool) :
    (val.length ≠ f.num_vars → f.evaluate val = none) ∧
    (parse_from_dimacs_cnf input = .ok f → val.length = f.num_vars →
      ∃ ev, f.evaluate val = some ev) := by
  constructor
  · intro hne
    unfold Formula.evaluate
    rw [if_pos (by omega)]
  · intro hp hlen
    rcases parse_ok_wf input f hp with ⟨-, -, -, hids⟩
    exact evaluate_isSome_of_bounds f val hids hlen

theorem spec_C4_witness :
    Formula.evaluate ⟨3, 2, [⟨[.Var 1, .NegatedVar 3]⟩, ⟨[.Var 2, .Var 3]⟩]⟩
        [true, true] = none ∧
    ∃ ev, Formula.evaluate ⟨3, 2, [⟨[.Var 1, .NegatedVar 3]⟩, ⟨[.Var 2, .Var 3]⟩]⟩
        [true, true, false] = some ev :=
  ⟨(spec_C4_length_guard
      ["p cnf 3 2".toList, "1 -3 0".toList, "2 3 0".toList, "%".toList]
      ⟨3, 2, [⟨[.Var 1, .NegatedVar 3]⟩, ⟨[.Var 2, .Var 3]⟩]⟩ [true, true]).1 (by decide),
    (spec_C4_length_guard
      ["p cnf 3 2".toList, "1 -3 0".toList, "2 3 0".toList, "%".toList]
      ⟨3, 2, [⟨[.Var 1, .NegatedVar 3]⟩, ⟨[.Var 2, .Var 3]⟩]⟩ [true, true, false]).2
      (by decide) (by decide)⟩

/-- C5: the claim says `parse_from_dimacs_cnf` always returns a `Result`
and never aborts; the code violates it. On the input consisting of the
single header line `p cnf 0 0` both consistency checks pass with an empty
variable set, and `var_set.iter().max().unwrap()` then panics (`unwrap`
of `None`), here the `panicked` outcome of the model. -/
theorem spec_C5_panic_on_empty_var_set :
    parse_from_dimacs_cnf ["p cnf 0 0".toList] = .panicked := by decide

/-- C10: every literal stored by a successful parse has variable id at
least 1, so the `index - 1` of `Clause::evaluate` never underflows; and
whenever the valuation length equals `num_vars`, clause evaluation never
takes the defensive `None` branch. -/
theorem spec_C10_ids_positive (input : List (List Char)) (f : Formula)
    (hp : parse_from_dimacs_cnf input = .ok f) :
    (∀ c ∈ f.clauses, ∀ l ∈ c.lits, 1 ≤ l.varId) ∧
    (∀ val : List Bool, val.length = f.num_vars →
      ∀ c ∈ f.clauses, ∃ b, c.evaluate val = some b) := by
  rcases parse_ok_wf input f hp with ⟨-, -, -, hids⟩
  refine ⟨fun c hc l hl => (hids c hc l hl).1, ?_⟩
  intro val hlen c hc
  apply clause_evaluate_isSome
  intro l hl
  rcases hids c hc l hl with ⟨h1, h2⟩
  exact ⟨h1, by omega⟩

theorem finalChecks_ne_noHeader (nv nc : Nat) (vs : Finset Nat)
    (cls : List Clause) :
    finalChecks nv nc vs cls ≠ .err .NoHeader := by
  unfold finalChecks
  split
  · simp
  split
  · simp
  split
  · simp
  split
  · simp
  · simp

theorem parseBody_ne_noHeader (nv nc : Nat) :
    ∀ (ls : List (List Char)) (vs : Finset Nat) (cls : List Clause),
      parseBody nv nc vs cls ls ≠ .err .NoHeader := by
  intro ls
  induction ls with
  | nil => intro vs cls; exact finalChecks_ne_noHeader nv nc vs cls
  | cons line rest ih =>
    intro vs cls
    simp only [parseBody]
    split
    · exact finalChecks_ne_noHeader nv nc vs cls
    split
    · exact ih vs cls
    · split
      · simp
      · split
        · simp
        · exact ih _ _

theorem headerParse_ne_noHeader (header : List Char) :
    headerParse header ≠ .error .NoHeader := by
  unfold headerParse
  split
  · split
    · split
      · simp
      split
      · simp
      · simp
    · simp
  · simp

/-- C6 counterexample: the claim says extra trailing header tokens fail
with `InvalidHeader`, but the source's slice pattern ends in `..` and a
header with a fifth token parses fine. -/
theorem spec_C6_counterexample :
    parse_from_dimacs_cnf ["p cnf 1 1 junk".toList, "1 0".toList] =
      .ok ⟨1, 1, [⟨[.Var 1]⟩]⟩ ∧
    parse_from_dimacs_cnf ["p cnf 1 1 junk".toList, "1 0".toList] ≠
      .err .InvalidHeader :=
  ⟨by decide, by decide⟩

/-- C6 (amended): `NoHeader` happens exactly on an empty stream; a first
line whose tokens do not start `p`, `cnf`, followed by two more tokens
fails with `InvalidHeader` (in particular `p 2 1` does); with that shape,
a third or fourth token that is not a valid `u64` fails with `Parsing`;
and tokens after the fourth are ignored — two headers agreeing on their
first four tokens parse identically. -/
theorem spec_C6_header_processing :
    (∀ input : List (List Char),
      parse_from_dimacs_cnf input = .err .NoHeader ↔ input = []) ∧
    (∀ header rest,
      (¬ ∃ nv nc more, splitWs (trimChars header) =
        ['p'] :: ['c', 'n', 'f'] :: nv :: nc :: more) →
      parse_from_dimacs_cnf (header :: rest) = .err .InvalidHeader) ∧
    (∀ header rest nv nc more,
      splitWs (trimChars header) = ['p'] :: ['c', 'n', 'f'] :: nv :: nc :: more →
      (parseU64 nv = none ∨ parseU64 nc = none) →
      parse_from_dimacs_cnf (header :: rest) = .err .Parsing) ∧
    (∀ h1 h2 rest nv nc more more',
      splitWs (trimChars h1) = ['p'] :: ['c', 'n', 'f'] :: nv :: nc :: more →
      splitWs (trimChars h2) = ['p'] :: ['c', 'n', 'f'] :: nv :: nc :: more' →
      parse_from_dimacs_cnf (h1 :: rest) = parse_from_dimacs_cnf (h2 :: rest)) ∧
    parse_from_dimacs_cnf ["p 2 1".toList, "1 -2 0".toList, "%".toList] =
      .err .InvalidHeader := by
  refine ⟨?_, ?_, ?_, ?_, by decide⟩
  · intro input
    constructor
    · intro h
      cases input with
      | nil => rfl
      | cons header rest =>
        exfalso
        simp only [parse_from_dimacs_cnf] at h
        cases hH : headerParse header with
        | error e =>
          rw [hH] at h
          simp only [ParseResult.err.injEq] at h
          exact headerParse_ne_noHeader header (by rw [hH, h])
        | ok p =>
          obtain ⟨nv, nc⟩ := p
          rw [hH] at h
          exact parseBody_ne_noHeader nv nc rest ∅ [] h
    · rintro rfl
      rfl
  · intro header rest hshape
    simp only [parse_from_dimacs_cnf]
    have : headerParse header = .error .InvalidHeader := by
      unfold headerParse
      split
      · rename_i p cnf nv nc more heq
        rw [if_neg]
        rintro ⟨rfl, rfl⟩
        exact hshape ⟨nv, nc, more, heq⟩
      · rfl
    rw [this]
  · intro header rest nv nc more hs hnone
    simp only [parse_from_dimacs_cnf]
    have : headerParse header = .error .Parsing := by
      rcases hnone with h | h
      · simp [headerParse, hs, h]
      · cases hnv : parseU64 nv with
        | none => simp [headerParse, hs, hnv]
        | some v => simp [headerParse, hs, hnv, h]
    rw [this]
  · intro h1 h2 rest nv nc more more' hs1 hs2
    have : headerParse h1 = headerParse h2 := by
      simp only [headerParse, hs1, hs2]
    simp only [parse_from_dimacs_cnf, this]

theorem spec_C6_witness :
    ((¬ ∃ nv nc more, splitWs (trimChars "p 2 1".toList) =
        ['p'] :: ['c', 'n', 'f'] :: nv :: nc :: more) →
      parse_from_dimacs_cnf ["p 2 1".toList, "1 -2 0".toList, "%".toList] =
        .err .InvalidHeader) ∧
    parse_from_dimacs_cnf ["p 2 1".toList, "1 -2 0".toList, "%".toList] =
      .err .InvalidHeader :=
  ⟨fun h => spec_C6_header_processing.2.1 "p 2 1".toList
      ["1 -2 0".toList, "%".toList] h,
    spec_C6_header_processing.2.1 "p 2 1".toList ["1 -2 0".toList, "%".toList]
      (by
        rintro ⟨nv, nc, more, h⟩
        rw [show splitWs (trimChars "p 2 1".toList) = [['p'], ['2'], ['1']] from by decide] at h
        simp at h)⟩

/-- C7 counterexample: the claim quantifies over every input whose body
contains a zero-literal clause line, but an earlier malformed line makes
the parse fail with `Parsing` before the `0` line is reached. -/
theorem spec_C7_counterexample :
    parse_from_dimacs_cnf ["p cnf 1 1".toList, "xyz".toList, "0".toList] =
      .err .Parsing ∧
    parse_from_dimacs_cnf ["p cnf 1 1".toList, "xyz".toList, "0".toList] ≠
      .err .EmptyClause :=
  ⟨by decide, by decide⟩

/-- C7 (amended): when the line loop reaches a clause line (neither the
`%` terminator nor a blank/comment line) whose tokens produce zero
literals before the terminating `0`, parsing fails with `EmptyClause`;
in particular a body line consisting only of `0` does. -/
theorem spec_C7_empty_clause :
    (∀ (nv nc : Nat) (vs : Finset Nat) (cls : List Clause)
      (line : List Char) (rest : List (List Char)) (vs2 : Finset Nat),
      startsWithChar (trimChars line) '%' = false →
      ((trimChars line).isEmpty || startsWithChar (trimChars line) 'c') = false →
      parseLits (splitWs (trimChars line)) vs [] = some (vs2, []) →
      parseBody nv nc vs cls (line :: rest) = .err .EmptyClause) ∧
    parse_from_dimacs_cnf
        ["p cnf 3 2".toList, "1 -3 0".toList, "0".toList, "%".toList] =
      .err .EmptyClause := by
  refine ⟨?_, by decide⟩
  intro nv nc vs cls line rest vs2 hterm hskip hP
  simp only [parseBody]
  rw [if_neg (by simp [hterm]), if_neg (by simp [hskip]), hP]
  simp

theorem spec_C7_witness :
    parseLits (splitWs (trimChars "0".toList)) ∅ [] = some (∅, []) ∧
    parseBody 3 2 ∅ [⟨[.Var 1, .NegatedVar 3]⟩] ["0".toList, "%".toList] =
      .err .EmptyClause :=
  ⟨by decide,
    spec_C7_empty_clause.1 3 2 ∅ [⟨[.Var 1, .NegatedVar 3]⟩] "0".toList
      ["%".toList] ∅ (by decide) (by decide) (by decide)⟩

theorem parseBody_terminator (nv nc : Nat) :
    ∀ (pre : List (List Char)) (vs : Finset Nat) (cls : List Clause)
      (l : List Char) (rest : List (List Char)),
      startsWithChar (trimChars l) '%' = true →
      parseBody nv nc vs cls (pre ++ l :: rest) = parseBody nv nc vs cls pre := by
  intro pre
  induction pre with
  | nil =>
    intro vs cls l rest hterm
    simp only [List.nil_append, parseBody]
    rw [if_pos hterm]
  | cons p pre' ih =>
    intro vs cls l rest hterm
    simp only [List.cons_append, parseBody]
    by_cases h1 : startsWithChar (trimChars p) '%' = true
    · rw [if_pos h1, if_pos h1]
    · rw [if_neg h1, if_neg h1]
      by_cases h2 : ((trimChars p).isEmpty || startsWithChar (trimChars p) 'c') = true
      · rw [if_pos h2, if_pos h2]
        exact ih vs cls l rest hterm
      · rw [if_neg h2, if_neg h2]
        cases hP : parseLits (splitWs (trimChars p)) vs [] with
        | none => rfl
        | some q =>
          obtain ⟨vs2, lits⟩ := q
          dsimp only
          by_cases hemp : lits.isEmpty = true
          · rw [if_pos hemp, if_pos hemp]
          · rw [if_neg hemp, if_neg hemp]
            exact ih vs2 (cls ++ [⟨lits⟩]) l rest hterm

theorem parseBody_skip (nv nc : Nat) :
    ∀ (pre : List (List Char)) (vs : Finset Nat) (cls : List Clause)
      (l : List Char) (rest : List (List Char)),
      startsWithChar (trimChars l) '%' = false →
      ((trimChars l).isEmpty || startsWithChar (trimChars l) 'c') = true →
      parseBody nv nc vs cls (pre ++ l :: rest) =
        parseBody nv nc vs cls (pre ++ rest) := by
  intro pre
  induction pre with
  | nil =>
    intro vs cls l rest hterm hskip
    simp only [List.nil_append, parseBody]
    rw [if_neg (by simp [hterm]), if_pos hskip]
  | cons p pre' ih =>
    intro vs cls l rest hterm hskip
    simp only [List.cons_append, parseBody]
    by_cases h1 : startsWithChar (trimChars p) '%' = true
    · rw [if_pos h1, if_pos h1]
    · rw [if_neg h1, if_neg h1]
      by_cases h2 : ((trimChars p).isEmpty || startsWithChar (trimChars p) 'c') = true
      · rw [if_pos h2, if_pos h2]
        exact ih vs cls l rest hterm hskip
      · rw [if_neg h2, if_neg h2]
        cases hP : parseLits (splitWs (trimChars p)) vs [] with
        | none => rfl
        | some q =>
          obtain ⟨vs2, lits⟩ := q
          dsimp only
          by_cases hemp : lits.isEmpty = true
          · rw [if_pos hemp, if_pos hemp]
          · rw [if_neg hemp, if_neg hemp]
            exact ih vs2 (cls ++ [⟨lits⟩]) l rest hterm hskip

/-- C8: the parse result is unchanged by (a) dropping a body line whose
trimmed form starts with `%` together with everything after it — the
terminator stops parsing immediately — and (b) dropping any body line
that is blank after trimming or starts with `c` — such lines contribute
no clause and no seen variables. -/
theorem spec_C8_terminator_and_skips :
    (∀ (hdr : List Char) (pre : List (List Char)) (l : List Char)
      (rest : List (List Char)),
      startsWithChar (trimChars l) '%' = true →
      parse_from_dimacs_cnf (hdr :: (pre ++ l :: rest)) =
        parse_from_dimacs_cnf (hdr :: pre)) ∧
    (∀ (hdr : List Char) (pre : List (List Char)) (l : List Char)
      (rest : List (List Char)),
      startsWithChar (trimChars l) '%' = false →
      ((trimChars l).isEmpty || startsWithChar (trimChars l) 'c') = true →
      parse_from_dimacs_cnf (hdr :: (pre ++ l :: rest)) =
        parse_from_dimacs_cnf (hdr :: (pre ++ rest))) := by
  constructor
  · intro hdr pre l rest hterm
    simp only [parse_from_dimacs_cnf]
    cases hH : headerParse hdr with
    | error e => rfl
    | ok p =>
      obtain ⟨nv, nc⟩ := p
      exact parseBody_terminator nv nc pre ∅ [] l rest hterm
  · intro hdr pre l rest hterm hskip
    simp only [parse_from_dimacs_cnf]
    cases hH : headerParse hdr with
    | error e => rfl
    | ok p =>
      obtain ⟨nv, nc⟩ := p
      exact parseBody_skip nv nc pre ∅ [] l rest hterm hskip

theorem spec_C8_witness :
    startsWithChar (trimChars "% end".toList) '%' = true ∧
    parse_from_dimacs_cnf ("p cnf 3 2".toList ::
        (["1 -3 0".toList, "2 3 0".toList] ++ "% end".toList :: ["junk".toList])) =
      parse_from_dimacs_cnf ("p cnf 3 2".toList ::
        ["1 -3 0".toList, "2 3 0".toList]) :=
  ⟨by decide,
    spec_C8_terminator_and_skips.1 "p cnf 3 2".toList
      ["1 -3 0".toList, "2 3 0".toList] "% end".toList ["junk".toList]
      (by decide)⟩

/-- C3: for a parsed formula, `SATObjective::eval` returns one score per
individual, in population order, each score being the `num_false` of that
individual's gene sequence against the formula, provided every
individual's length equals `num_vars`; any length mismatch makes the
whole call return `None`, with no partial score vector. -/
theorem spec_C3_sat_objective (input : List (List Char)) (f : Formula)
    (pop : List (List Bool)) (hp : parse_from_dimacs_cnf input = .ok f) :
    ((∀ ind ∈ pop, ind.length = f.num_vars) →
      SATObjective.eval f pop =
        some (pop.map (fun ind => f.num_clauses - trueCount f ind)) ∧
      ∀ ind ∈ pop, (f.evaluate ind).map FormulaEvaluation.num_false =
        some (f.num_clauses - trueCount f ind)) ∧
    ((∃ ind ∈ pop, ind.length ≠ f.num_vars) → SATObjective.eval f pop = none) := by
  rcases parse_ok_wf input f hp with ⟨-, -, -, hids⟩
  constructor
  · intro hall
    have key : ∀ ind ∈ pop, (f.evaluate ind).map FormulaEvaluation.num_false =
        some (f.num_clauses - trueCount f ind) := by
      intro ind hind
      rcases evaluate_isSome_of_bounds f ind hids (hall ind hind) with ⟨ev, hev⟩
      rcases evaluate_eq_some_char f ind ev hev with ⟨-, ys, hmap, hnt, hnf, -⟩
      have htc : ev.num_true = trueCount f ind := by
        rw [hnt, trueCount]
        exact (filter_length_of_map_eq_map_some _ _ _ hmap).symm
      rw [hev]
      simp [hnf, htc]
    refine ⟨?_, key⟩
    unfold SATObjective.eval
    have hmaps : pop.map (fun ind =>
        (f.evaluate ind).map (fun evaluation => evaluation.num_false)) =
        (pop.map (fun ind => f.num_clauses - trueCount f ind)).map some := by
      rw [List.map_map]
      exact List.map_congr_left (fun ind hind => key ind hind)
    rw [hmaps, optionCollect_map_some]
  · rintro ⟨ind, hind, hlen⟩
    have hev : f.evaluate ind = none := by
      unfold Formula.evaluate
      rw [if_pos (by omega)]
    unfold SATObjective.eval
    apply optionCollect_eq_none_of_mem
    have : ((none : Option Nat)) =
        (f.evaluate ind).map (fun evaluation => evaluation.num_false) := by
      simp [hev]
    rw [this]
    exact List.mem_map_of_mem _ hind

theorem spec_C3_witness :
    parse_from_dimacs_cnf
        ["p cnf 3 3".toList, "1 -3 0".toList, "2 3 0".toList, "1 2 0".toList] =
      .ok ⟨3, 3, [⟨[.Var 1, .NegatedVar 3]⟩, ⟨[.Var 2, .Var 3]⟩, ⟨[.Var 1, .Var 2]⟩]⟩ ∧
    SATObjective.eval ⟨3, 3, [⟨[.Var 1, .NegatedVar 3]⟩, ⟨[.Var 2, .Var 3]⟩, ⟨[.Var 1, .Var 2]⟩]⟩
        [[true, true, false], [true, false, false], [false, false, false], [true, true, true]] =
      some [0, 1, 2, 0] :=
  ⟨by decide, by
    have h := (spec_C3_sat_objective
      ["p cnf 3 3".toList, "1 -3 0".toList, "2 3 0".toList, "1 2 0".toList]
      ⟨3, 3, [⟨[.Var 1, .NegatedVar 3]⟩, ⟨[.Var 2, .Var 3]⟩, ⟨[.Var 1, .Var 2]⟩]⟩
      [[true, true, false], [true, false, false], [false, false, false], [true, true, true]]
      (by decide)).1 (by decide)
    rw [h.1]
    decide⟩

theorem set_cons_perm {α : Type} :
    ∀ (t : List α) (k : Nat) (b a : α), t.get? k = some b →
      List.Perm (b :: t.set k a) (a :: t) := by
  intro t
  induction t with
  | nil =>
    intro k b a h
    simp [List.get?] at h
  | cons c t' ih =>
    intro k b a h
    cases k with
    | zero =>
      simp only [List.get?, Option.some.injEq] at h
      subst h
      simp only [List.set]
      exact List.Perm.swap a c t'
    | succ k' =>
      simp only [List.get?] at h
      simp only [List.set]
      exact (List.Perm.swap c b _).trans
        ((List.Perm.cons c (ih k' b a h)).trans (List.Perm.swap a c t'))

theorem setSet_perm {α : Type} :
    ∀ (l : List α) (i j : Nat) (a b : α),
      l.get? i = some a → l.get? j = some b →
      List.Perm ((l.set i b).set j a) l := by
  intro l
  induction l with
  | nil =>
    intro i j a b hi hj
    simp [List.get?] at hi
  | cons c t ih =>
    intro i j a b hi hj
    cases i with
    | zero =>
      simp only [List.get?, Option.some.injEq] at hi
      subst hi
      cases j with
      | zero =>
        simp only [List.get?, Option.some.injEq] at hj
        subst hj
        simp [List.set]
      | succ j' =>
        simp only [List.get?] at hj
        simp only [List.set]
        exact set_cons_perm t j' b c hj
    | succ i' =>
      simp only [List.get?] at hi
      cases j with
      | zero =>
        simp only [List.get?, Option.some.injEq] at hj
        subst hj
        simp only [List.set]
        exact set_cons_perm t i' a c hi
      | succ j' =>
        simp only [List.get?] at hj
        simp only [List.set]
        exact List.Perm.cons c (ih i' j' a b hi hj)

theorem listSwap_perm {α : Type} (l : List α) (i j : Nat) :
    List.Perm (listSwap l i j) l := by
  unfold listSwap
  split
  · rename_i a b hi hj
    exact setSet_perm l i j a b hi hj
  · exact List.Perm.refl l

theorem shuffleFrom_perm {α : Type} (rng : Nat → Nat) :
    ∀ (n : Nat) (l : List α), List.Perm (shuffleFrom rng n l) l := by
  intro n
  induction n with
  | zero => intro l; exact List.Perm.refl l
  | succ m ih =>
    intro l
    exact (ih _).trans (listSwap_perm _ _ _)

theorem shuffle_perm {α : Type} (rng : Nat → Nat) (l : List α) :
    List.Perm (shuffle rng l) l :=
  shuffleFrom_perm rng _ l

/-- C9: for every dimension, population size, bounds with
`lower ≤ upper`, and every outcome of the random source, each generator
produces exactly `pop_size` individuals of exactly `dim` genes; integer
and real genes lie within the inclusive bounds; and each permutation
individual is a bijection onto `0..dim` (`dim` distinct genes, every
value below `dim` occurring). -/
theorem spec_C9_generators (dim pop_size lower upper : Nat) (ql qu : ℚ)
    (rb : Nat → Nat → Bool) (ri : Nat → Nat → Nat) (rr : Nat → Nat → ℚ)
    (rp : Nat → Nat → Nat)
    (hbounds : lower ≤ upper) (hqbounds : ql ≤ qu) :
    ((BinaryPopGenerator.gen_pop dim pop_size rb).length = pop_size ∧
      ∀ ind ∈ BinaryPopGenerator.gen_pop dim pop_size rb, ind.length = dim) ∧
    ((IntegerPopGenerator.gen_pop dim lower upper pop_size ri).length = pop_size ∧
      ∀ ind ∈ IntegerPopGenerator.gen_pop dim lower upper pop_size ri,
        ind.length = dim ∧ ∀ g ∈ ind, lower ≤ g ∧ g ≤ upper) ∧
    ((RealPopGenerator.gen_pop dim ql qu pop_size rr).length = pop_size ∧
      ∀ ind ∈ RealPopGenerator.gen_pop dim ql qu pop_size rr,
        ind.length = dim ∧ ∀ g ∈ ind, ql ≤ g ∧ g ≤ qu) ∧
    ((IntPermPopGenerator.gen_pop dim pop_size rp).length = pop_size ∧
      ∀ ind ∈ IntPermPopGenerator.gen_pop dim pop_size rp,
        ind.length = dim ∧ ind.Nodup ∧ ∀ v, v ∈ ind ↔ v < dim) := by
  refine ⟨⟨by simp [BinaryPopGenerator.gen_pop], ?_⟩,
    ⟨by simp [IntegerPopGenerator.gen_pop], ?_⟩,
    ⟨by simp [RealPopGenerator.gen_pop], ?_⟩,
    ⟨by simp [IntPermPopGenerator.gen_pop], ?_⟩⟩
  · intro ind hind
    rcases List.mem_map.mp hind with ⟨i, -, rfl⟩
    simp
  · intro ind hind
    rcases List.mem_map.mp hind with ⟨i, -, rfl⟩
    refine ⟨by simp, ?_⟩
    intro g hg
    rcases List.mem_map.mp hg with ⟨j, -, rfl⟩
    unfold uniformSample
    have hmod : ri i j % (upper - lower + 1) < upper - lower + 1 :=
      Nat.mod_lt _ (by omega)
    omega
  · intro ind hind
    rcases List.mem_map.mp hind with ⟨i, -, rfl⟩
    refine ⟨by simp, ?_⟩
    intro g hg
    rcases List.mem_map.mp hg with ⟨j, -, rfl⟩
    unfold uniformSampleReal
    have h0 : (0 : ℚ) ≤ max 0 (min 1 (rr i j)) := le_max_left 0 _
    have h1 : max 0 (min 1 (rr i j)) ≤ 1 :=
      max_le (by norm_num) (min_le_left 1 _)
    have hd : (0 : ℚ) ≤ qu - ql := by linarith
    constructor
    · nlinarith
    · nlinarith
  · intro ind hind
    rcases List.mem_map.mp hind with ⟨i, -, rfl⟩
    have hperm := shuffle_perm (rp i) (List.range dim)
    refine ⟨hperm.length_eq.trans (List.length_range dim),
      hperm.symm.nodup (List.nodup_range dim), ?_⟩
    intro v
    rw [hperm.mem_iff, List.mem_range]

theorem spec_C9_witness :
    (1 : Nat) ≤ 5 ∧ (0 : ℚ) ≤ 1 ∧
    (((BinaryPopGenerator.gen_pop 3 2 (fun _ _ => true)).length = 2 ∧
      ∀ ind ∈ BinaryPopGenerator.gen_pop 3 2 (fun _ _ => true), ind.length = 3) ∧
    ((IntegerPopGenerator.gen_pop 3 1 5 2 (fun _ _ => 7)).length = 2 ∧
      ∀ ind ∈ IntegerPopGenerator.gen_pop 3 1 5 2 (fun _ _ => 7),
        ind.length = 3 ∧ ∀ g ∈ ind, 1 ≤ g ∧ g ≤ 5) ∧
    ((RealPopGenerator.gen_pop 3 (0 : ℚ) 1 2 (fun _ _ => (1 : ℚ) / 2)).length = 2 ∧
      ∀ ind ∈ RealPopGenerator.gen_pop 3 (0 : ℚ) 1 2 (fun _ _ => (1 : ℚ) / 2),
        ind.length = 3 ∧ ∀ g ∈ ind, (0 : ℚ) ≤ g ∧ g ≤ 1) ∧
    ((IntPermPopGenerator.gen_pop 3 2 (fun i j => i + j)).length = 2 ∧
      ∀ ind ∈ IntPermPopGenerator.gen_pop 3 2 (fun i j => i + j),
        ind.length = 3 ∧ ind.Nodup ∧ ∀ v, v ∈ ind ↔ v < 3)) :=
  ⟨by norm_num, by norm_num,
    spec_C9_generators 3 2 1 5 0 1 (fun _ _ => true) (fun _ _ => 7)
      (fun _ _ => (1 : ℚ) / 2) (fun i j => i + j) (by norm_num) (by norm_num)⟩

theorem spec_C10_witness :
    (∀ c ∈ (⟨3, 2, [⟨[.Var 1, .NegatedVar 3]⟩, ⟨[.Var 2, .Var 3]⟩]⟩ : Formula).clauses,
      ∀ l ∈ c.lits, 1 ≤ l.varId) ∧
    (∀ val : List Bool,
      val.length = (⟨3, 2, [⟨[.Var 1, .NegatedVar 3]⟩, ⟨[.Var 2, .Var 3]⟩]⟩ : Formula).num_vars →
      ∀ c ∈ (⟨3, 2, [⟨[.Var 1, .NegatedVar 3]⟩, ⟨[.Var 2, .Var 3]⟩]⟩ : Formula).clauses,
        ∃ b, c.evaluate val = some b) :=
  spec_C10_ids_positive
    ["p cnf 3 2".toList, "1 -3 0".toList, "2 3 0".toList, "%".toList] _ (by decide)

end AlgEv
